import Mathlib

/-!
Verification development for the genesis backend: a per-application
backend with account management, revocable signed session tokens, and a
per-account key/value document store with quota limits.

The HTTP route handlers (package `routes`) are embedded directly from the
source.  The `core` package (user registry, tenant data store, session
token service, key namespace encoder) is consumed by those handlers but
its source is not part of this tree; its operations are modelled from the
specification, as marked on each definition.
-/

namespace Genesis

/-- Error kinds of the core, per the spec's error taxonomy (§7). -/
inductive Err where
  | notFound
  | alreadyExists
  | invalidCredentials
  | invalidToken
  | expired
  | revoked
  | internal
deriving DecidableEq, Repr

/-- An account record (`core.User`): unique name, password digest, admin flag. -/
structure User where
  name : String
  password : String
  admin : Bool
deriving DecidableEq, Repr

/-- Record `core.PartialUser`: optional field updates for an account. -/
structure PartialUser where
  admin : Option Bool
  password : Option String
deriving DecidableEq, Repr

/-- Record `core.PublicUser`: the public view of an account (name and admin flag only). -/
structure PublicUser where
  name : String
  admin : Bool
deriving DecidableEq, Repr

/-- Session token claims: unique token id, owning account name, expiry instant.
Time is modelled as an integer instant. -/
structure Claims where
  id : String
  user : String
  expiresAt : Int
deriving DecidableEq, Repr

/-- The storage engine state visible to the core: account records, tenant
data items (owner, key, raw JSON value bytes), and the revocation set
(token id together with the instant at which the storage engine's
time-to-live mechanism removes the entry). -/
structure DB where
  users : List User
  data : List (String × String × List Nat)
  revoked : List (String × Int)
deriving DecidableEq, Repr

/-- The empty storage state. -/
def emptyDB : DB := ⟨[], [], []⟩

/-- Opaque password hashing primitive (out of core scope); modelled as an
injective tagging function. -/
def hashPassword (p : String) : String := "digest:" ++ p

/-- Digest comparison primitive paired with `hashPassword`. -/
def verifyPassword (p digest : String) : Bool := hashPassword p == digest

/-- Modelled from the spec: `core.GetUser` — point lookup of an account by
name, absent from src; spec §4.2 `get(name)`. -/
def getUser (db : DB) (name : String) : Option User :=
  db.users.find? (fun u => u.name == name)

/-- Whether an account with the given name exists. -/
def hasUser (db : DB) (name : String) : Bool :=
  db.users.any (fun u => u.name == name)

/-- Modelled from the spec: `core.CreateUser` — absent from src; spec §4.2
performs an atomic check-and-put on the account key, failing with
`AlreadyExists` when present, the check and the insert inside one storage
transaction (spec §5).  The transaction is modelled as a single atomic
step on the storage state. -/
def createUser (db : DB) (u : User) : Except Err Unit × DB :=
  if hasUser db u.name then
    (Except.error Err.alreadyExists, db)
  else
    (Except.ok (), { db with users := db.users ++ [u] })

/-- A serialization of concurrent `createUser` transactions: since each
transaction is atomic, any concurrent execution is equivalent to running
them in some sequential order. -/
def runCreates (db : DB) : List User → List (Except Err Unit) × DB
  | [] => ([], db)
  | u :: us =>
    let step := createUser db u
    let rest := runCreates step.2 us
    (step.1 :: rest.1, rest.2)

/-- Modelled from the spec: `core.AuthenticateUser` — absent from src; spec
§4.2 `authenticate(name, passwordPlain)`: looks up the account; if absent,
or if present but the digest comparison fails, returns the same
`InvalidCredentials` failure through the same code path. -/
def authenticateUserCore (db : DB) (name pw : String) : Except Err User :=
  match getUser db name with
  | none => Except.error Err.invalidCredentials
  | some u =>
    if verifyPassword pw u.password then Except.ok u
    else Except.error Err.invalidCredentials

/-- Applies a partial update to an account record; a password field, when
present, is re-hashed before storage (spec §4.2 `update`). -/
def applyPartial (u : User) (p : PartialUser) : User :=
  { u with
    admin := p.admin.getD u.admin
    password := ((p.password).map hashPassword).getD u.password }

/-- Modelled from the spec: `core.UpdateUser` — absent from src; spec §4.2
`update(name, {admin?, passwordPlain?})`: read-modify-write restricted to
the supplied optional fields; fails `NotFound` if the account is absent. -/
def updateUserCore (db : DB) (name : String) (p : PartialUser) : Except Err DB :=
  if hasUser db name then
    Except.ok { db with
      users := db.users.map (fun u => if u.name == name then applyPartial u p else u) }
  else
    Except.error Err.notFound

/-- Modelled from the spec: `core.GetDataCountForUser` — absent from src;
spec §4.3 `count(owner)` prefix-scans the owner's DataItem keys and
returns the cardinality.  The route passes the request key as a second
argument, but the spec's contract counts by owner only (spec §9.103: the
observed quota check does not distinguish a new key from an overwrite),
so the key argument does not take part in the count. -/
def getDataCountForUser (db : DB) (owner _key : String) : Nat :=
  countEntries db.data owner
where
  countEntries : List (String × String × List Nat) → String → Nat
    | [], _ => 0
    | e :: rest, o => (if e.1 == o then 1 else 0) + countEntries rest o

/-- Modelled from the spec: `core.SetDataForUser` — absent from src; spec
§4.3 `set(owner, key, rawJSON)` writes (inserts or overwrites) the value
unconditionally at the computed key; any previous entry under the same
(owner, key) is replaced. -/
def setDataForUser (db : DB) (owner key : String) (value : List Nat) : DB :=
  { db with
    data := db.data.filter (fun e => !(e.1 == owner && e.2.1 == key))
      ++ [(owner, key, value)] }

/-- Modelled from the spec: `core.GetDataFromUser` — absent from src; spec
§4.3 `get(owner, key)`: point lookup, fails `NotFound` if absent. -/
def getDataFromUser (db : DB) (owner key : String) : Except Err (List Nat) :=
  match db.data.find? (fun e => e.1 == owner && e.2.1 == key) with
  | some e => Except.ok e.2.2
  | none => Except.error Err.notFound

/-- Modelled from the spec: `core.DeleteDataFromUser` — absent from src;
spec §4.3 `delete(owner, key)`: idempotent, returns success whether or not
the key existed. -/
def deleteDataFromUser (db : DB) (owner key : String) : Except Err Unit × DB :=
  (Except.ok (),
   { db with data := db.data.filter (fun e => !(e.1 == owner && e.2.1 == key)) })

/-- Modelled from the spec: `core.GetAllDataFromUser` — absent from src;
spec §4.3 `getAll(owner)` prefix-scans all of the owner's items and
assembles a single JSON object whose fields are the item keys and whose
values are the stored raw bytes spliced in verbatim.  The result is
modelled as the field list of that JSON object, in scan order. -/
def getAllDataFromUser (db : DB) (owner : String) : List (String × List Nat) :=
  collectFields db.data owner
where
  collectFields : List (String × String × List Nat) → String → List (String × List Nat)
    | [], _ => []
    | e :: rest, o =>
      if e.1 == o then (e.2.1, e.2.2) :: collectFields rest o
      else collectFields rest o

/-- The number of distinct DataItem keys owned by one account in a storage
state (spec §3's DataItem invariant speaks of distinct keys). -/
def distinctKeyCount (db : DB) (owner : String) : Nat :=
  ((db.data.filter (fun e => e.1 == owner)).map (fun e => e.2.1)).dedup.length

/-- Whether a DataItem with the given owner and key is present. -/
def hasDataKey (db : DB) (owner key : String) : Bool :=
  db.data.any (fun e => e.1 == owner && e.2.1 == key)

/-- Membership test of the revocation set at an instant: an entry is live
while the storage engine's time-to-live has not yet removed it (spec §3
RevokedToken: the entry disappears at the moment the token would have
expired naturally). -/
def isRevoked (revoked : List (String × Int)) (now : Int) (id : String) : Bool :=
  revoked.any (fun e => e.1 == id && now < e.2)

/-- Modelled from the spec: `core.ParseAuthToken` — absent from src; spec
§4.4 `parse(tokenString)`: verifies signature and decodes claims via the
external primitive — `none` stands for a token string whose signature
verification or structural decoding fails (`InvalidToken`); fails
`Expired` if `now >= expiresAt`; on success checks the revocation set for
the claims' id — fails `Revoked` if present; otherwise returns the claims. -/
def parseAuthToken (revoked : List (String × Int)) (now : Int)
    (tok : Option Claims) : Except Err Claims :=
  match tok with
  | none => Except.error Err.invalidToken
  | some c =>
    if c.expiresAt ≤ now then Except.error Err.expired
    else if isRevoked revoked now c.id then Except.error Err.revoked
    else Except.ok c

/-- Modelled from the spec: `core.StoreInvalidatedToken` — absent from src;
spec §4.4 `revoke(claims)`: if `ttl <= 0` the token is already naturally
expired and the call is a no-op; otherwise inserts a RevokedToken entry
with that time-to-live, so the entry lives until `now + ttl`. -/
def storeInvalidatedToken (revoked : List (String × Int)) (now : Int)
    (id : String) (ttl : Int) : List (String × Int) :=
  if ttl ≤ 0 then revoked else (id, now + ttl) :: revoked

/-- Revocation of a parsed token, as the `Logout` handler performs it
(src/unnamed/part_001, `core.StoreInvalidatedToken(parsed.ID,
parsed.ExpiresAt.Sub(time.Now()))`): the time-to-live is the remaining
validity of the token. -/
def revokeClaims (revoked : List (String × Int)) (now : Int) (c : Claims) :
    List (String × Int) :=
  storeInvalidatedToken revoked now c.id (c.expiresAt - now)

/-- The request body of `POST /login` (src/unnamed/part_001 `loginBody`). -/
structure LoginBody where
  user : String
  password : String
deriving DecidableEq, Repr

/-- Outcome of the `Login` handler, as observable by the client. -/
inductive LoginResult where
  | okUser (u : PublicUser)
  | badRequest
  | unauthorized
  | internalErr
deriving DecidableEq, Repr

/-- The `authenticateUser` helper (src/unnamed/part_001): reads the cookie
(`none` stands for a missing or empty cookie, the inner `Option Claims` is
what the token-decoding primitive yields for its value); returns no user
when the cookie is absent, the token fails to parse, or the claimed
account cannot be retrieved. -/
def authenticateUser (db : DB) (now : Int) (cookie : Option (Option Claims)) :
    Option User :=
  match cookie with
  | none => none
  | some tok =>
    match parseAuthToken db.revoked now tok with
    | Except.error _ => none
    | Except.ok parsed =>
      match getUser db parsed.user with
      | none => none
      | some user => some user

/-- The `Login` handler (src/unnamed/part_001): when the cookie already
authenticates a user, the public view is returned at once and the body is
never consulted; otherwise the body is bound and validated (`none` stands
for a body that fails JSON binding or validation), credentials are checked
via `core.AuthenticateUser`, and on success the public view is returned
(the token-signing step, which can only fail with `Internal`, is modelled
as succeeding). -/
def loginRoute (db : DB) (now : Int) (cookie : Option (Option Claims))
    (body : Option LoginBody) : LoginResult :=
  match authenticateUser db now cookie with
  | some user => LoginResult.okUser ⟨user.name, user.admin⟩
  | none =>
    match body with
    | none => LoginResult.badRequest
    | some b =>
      match authenticateUserCore db b.user b.password with
      | Except.error _ => LoginResult.unauthorized
      | Except.ok user => LoginResult.okUser ⟨user.name, user.admin⟩

/-- The configuration fields of `core.Config` that the data routes read:
the per-account key quota `AppKeysPerUser`, the maximal payload size
`AppDataMaxSize`, and the key pattern (modelled as a boolean predicate). -/
structure Config where
  appKeysPerUser : Nat
  appDataMaxSize : Nat
  keyOk : String → Bool

/-- Outcome of the `SetData` handler, as observable by the client. -/
inductive SetDataResult where
  | unauthorized
  | badKey
  | quotaExceeded
  | payloadTooLarge
  | badBody
  | internalErr
  | ok
deriving DecidableEq, Repr

/-- The `SetData` handler (src/routes/data.go lines 85-105), checks in
source order: authentication, key pattern, the quota count-check
(`count > AppKeysPerUser` rejects), content length (`none` stands for an
unparsable Content-Length header), body read (`none` stands for a failed
read), then `core.SetDataForUser` (whose storage write is modelled as
succeeding). -/
def setDataRoute (cfg : Config) (db : DB) (auth : Option User) (key : String)
    (size : Option Nat) (body : Option (List Nat)) : SetDataResult × DB :=
  match auth with
  | none => (SetDataResult.unauthorized, db)
  | some user =>
    if !cfg.keyOk key then (SetDataResult.badKey, db)
    else if cfg.appKeysPerUser < getDataCountForUser db user.name key then
      (SetDataResult.quotaExceeded, db)
    else
      match size with
      | none => (SetDataResult.payloadTooLarge, db)
      | some s =>
        if cfg.appDataMaxSize < s then (SetDataResult.payloadTooLarge, db)
        else
          match body with
          | none => (SetDataResult.badBody, db)
          | some v => (SetDataResult.ok, setDataForUser db user.name key v)

/-- Sequential execution of `SetData` requests for one authenticated user,
one key after another, each carrying an empty payload of size zero. -/
def runSets (cfg : Config) (db : DB) (user : User) :
    List String → List SetDataResult × DB
  | [] => ([], db)
  | k :: ks =>
    let step := setDataRoute cfg db (some user) k (some 0) (some [])
    let rest := runSets cfg step.2 user ks
    (step.1 :: rest.1, rest.2)

/-- Outcome of the `UpdateUser` handler, as observable by the client. -/
inductive UpdateUserResult where
  | forbidden
  | badRequest
  | internalErr
  | ok
deriving DecidableEq, Repr

/-- The `UpdateUser` handler (src/routes/user.go lines 64-86), checks in
source order: the requester must authenticate and be an admin (403), the
target name must differ from the requester's own name (403 "you cannot
update yourself"), the body must bind and validate (`none` stands for a
failure of either), `core.GetUser` on the target must succeed (500
otherwise), then `core.UpdateUser` is applied (400 on failure). -/
def updateUserRoute (db : DB) (now : Int) (cookie : Option (Option Claims))
    (name : String) (body : Option PartialUser) : UpdateUserResult × DB :=
  match authenticateUser db now cookie with
  | none => (UpdateUserResult.forbidden, db)
  | some user =>
    if !user.admin then (UpdateUserResult.forbidden, db)
    else if name == user.name then (UpdateUserResult.forbidden, db)
    else
      match body with
      | none => (UpdateUserResult.badRequest, db)
      | some b =>
        match getUser db name with
        | none => (UpdateUserResult.internalErr, db)
        | some _ =>
          match updateUserCore db name b with
          | Except.error _ => (UpdateUserResult.badRequest, db)
          | Except.ok db2 => (UpdateUserResult.ok, db2)

/-- The entity kinds multiplexed into the flat key space (spec §3). -/
inductive EntityKind where
  | account
  | dataItem
  | revokedToken
deriving DecidableEq, Repr

/-- The fixed tag byte reserved per entity kind (spec §4.1). -/
def kindTag : EntityKind → Nat
  | EntityKind.account => 0
  | EntityKind.dataItem => 1
  | EntityKind.revokedToken => 2

/-- Big-endian four-byte encoding of a component length (the fixed-width
length prefix of the encoder). -/
def toBytes4 (n : Nat) : List Nat :=
  [n / 2 ^ 24 % 256, n / 2 ^ 16 % 256, n / 2 ^ 8 % 256, n % 256]

/-- Reassembles a length from its four big-endian bytes. -/
def fromBytes4 (a b c d : Nat) : Nat :=
  ((a * 256 + b) * 256 + c) * 256 + d

/-- A variable-length component, length-prefixed (spec §4.1: each
variable-length component is length-prefixed rather than separated by an
assumed-absent character).  Byte strings are modelled as lists of byte
values. -/
def encodeComponent (s : List Nat) : List Nat :=
  toBytes4 s.length ++ s

/-- Modelled from the spec: the key namespace encoder's `encode(kind,
owner, key?)` — absent from src; spec §4.1: one fixed tag byte per entity
kind first, followed by the owner, followed (for DataItems) by the item
key, every variable-length component length-prefixed. -/
def encodeKey : EntityKind → List Nat → Option (List Nat) → List Nat
  | k, owner, none => kindTag k :: encodeComponent owner
  | k, owner, some key => kindTag k :: (encodeComponent owner ++ encodeComponent key)

/-- Consumes one length-prefixed component from the front of a byte
string: the four length bytes must be byte values and the remainder must
hold at least that many bytes; fails closed otherwise. -/
def readComponent (b : List Nat) : Option (List Nat × List Nat) :=
  match b with
  | a :: b2 :: c :: d :: rest =>
    if a < 256 && b2 < 256 && c < 256 && d < 256 then
      let n := fromBytes4 a b2 c d
      if n ≤ rest.length then some (rest.take n, rest.drop n) else none
    else none
  | _ => none

/-- Modelled from the spec: the key namespace encoder's
`decodeDataKey(bytes)` — absent from src; spec §4.1: the exact inverse of
`encode` for DataItem keys, failing closed (a decode error) on malformed
input rather than silently truncating: the tag must be the DataItem tag,
both components must parse, and no bytes may remain. -/
def decodeDataKey (b : List Nat) : Option (List Nat × List Nat) :=
  match b with
  | [] => none
  | t :: rest =>
    if t = kindTag EntityKind.dataItem then
      match readComponent rest with
      | none => none
      | some (owner, rest2) =>
        match readComponent rest2 with
        | none => none
        | some (key, rest3) => if rest3 = [] then some (owner, key) else none
    else none

/-! ### Supporting lemmas -/

/-- A search for entries matching a predicate finds nothing in a list from
which every match has been filtered out. -/
lemma find?_filter_not_self {α : Type} (l : List α) (p : α → Bool) :
    (l.filter (fun e => !p e)).find? p = none := by
  rw [List.find?_eq_none]
  intro x hx
  have hmem := (List.mem_filter.mp hx).2
  simp only [Bool.not_eq_true'] at hmem
  simp [hmem]

/-- Entry counting distributes over list concatenation. -/
lemma countEntries_append (l1 l2 : List (String × String × List Nat)) (o : String) :
    getDataCountForUser.countEntries (l1 ++ l2) o =
      getDataCountForUser.countEntries l1 o + getDataCountForUser.countEntries l2 o := by
  induction l1 with
  | nil => simp [getDataCountForUser.countEntries]
  | cons e rest ih =>
    show (if (e.1 == o) = true then 1 else 0) +
        getDataCountForUser.countEntries (rest ++ l2) o = _
    rw [ih]
    show _ = (if (e.1 == o) = true then 1 else 0) +
        getDataCountForUser.countEntries rest o + _
    omega

/-- Entry counting agrees with the length of the owner-filtered list. -/
lemma countEntries_eq_length_filter (l : List (String × String × List Nat)) (o : String) :
    getDataCountForUser.countEntries l o = (l.filter (fun e => e.1 == o)).length := by
  induction l with
  | nil => rfl
  | cons e rest ih =>
    simp only [getDataCountForUser.countEntries, List.filter_cons]
    by_cases h : (e.1 == o) = true
    · simp [h, ih]
      omega
    · simp only [Bool.not_eq_true] at h
      simp [h, ih]

/-- Entry counting agrees with the field list produced by `getAll`. -/
lemma countEntries_eq_length_collectFields
    (l : List (String × String × List Nat)) (o : String) :
    getDataCountForUser.countEntries l o =
      (getAllDataFromUser.collectFields l o).length := by
  induction l with
  | nil => rfl
  | cons e rest ih =>
    simp only [getDataCountForUser.countEntries, getAllDataFromUser.collectFields]
    by_cases h : (e.1 == o) = true
    · simp [h, ih]
      omega
    · simp only [Bool.not_eq_true] at h
      simp [h, ih]

/-- The number of distinct keys an owner holds never exceeds the number of
the owner's entries. -/
lemma distinctKeyCount_le_countEntries (db : DB) (o : String) :
    distinctKeyCount db o ≤ getDataCountForUser.countEntries db.data o := by
  unfold distinctKeyCount
  calc ((db.data.filter (fun e => e.1 == o)).map (fun e => e.2.1)).dedup.length
      ≤ ((db.data.filter (fun e => e.1 == o)).map (fun e => e.2.1)).length :=
        (List.dedup_sublist _).length_le
    _ = (db.data.filter (fun e => e.1 == o)).length := List.length_map _ _
    _ = getDataCountForUser.countEntries db.data o :=
        (countEntries_eq_length_filter _ _).symm

/-! ### C5: set/get round trip -/

/-- C5: For every owner, key, and value, a successful set(owner, key,
value) followed by get(owner, key) returns exactly the value that was
stored, byte for byte unchanged. -/
theorem set_then_get_roundtrip (db : DB) (owner key : String) (v : List Nat) :
    getDataFromUser (setDataForUser db owner key v) owner key = Except.ok v := by
  unfold getDataFromUser setDataForUser
  rw [List.find?_append, find?_filter_not_self]
  simp

/-! ### C6: delete is idempotent and erases the key -/

/-- C6: For every owner and key, delete(owner, key) returns success
whether or not the key existed (it never fails merely because the target
was already absent), and after it returns, get(owner, key) fails
NotFound. -/
theorem delete_always_succeeds_and_erases (db : DB) (owner key : String) :
    (deleteDataFromUser db owner key).1 = Except.ok () ∧
    getDataFromUser (deleteDataFromUser db owner key).2 owner key =
      Except.error Err.notFound := by
  constructor
  · rfl
  · unfold getDataFromUser deleteDataFromUser
    rw [find?_filter_not_self]

/-! ### C7: count agrees with getAll -/

/-- C7: For every owner and every storage state, count(owner) equals the
number of keys (fields) in the JSON object returned by getAll(owner). -/
theorem count_eq_getAll_fields (db : DB) (owner key : String) :
    getDataCountForUser db owner key = (getAllDataFromUser db owner).length :=
  countEntries_eq_length_collectFields db.data owner

/-! ### C3: authentication failures are indistinguishable -/

/-- C3: For every name and password, authenticate returns the same
InvalidCredentials failure when the account does not exist as when the
account exists but the password digest comparison fails, so a caller
observing only the result cannot distinguish an unknown user from a wrong
password. -/
theorem authenticate_failures_indistinguishable
    (db : DB) (n1 pw1 n2 pw2 : String) (u : User)
    (habs : getUser db n1 = none)
    (hpres : getUser db n2 = some u)
    (hbad : verifyPassword pw2 u.password = false) :
    authenticateUserCore db n1 pw1 = Except.error Err.invalidCredentials ∧
    authenticateUserCore db n2 pw2 = Except.error Err.invalidCredentials ∧
    authenticateUserCore db n1 pw1 = authenticateUserCore db n2 pw2 := by
  have h1 : authenticateUserCore db n1 pw1 = Except.error Err.invalidCredentials := by
    unfold authenticateUserCore
    rw [habs]
  have h2 : authenticateUserCore db n2 pw2 = Except.error Err.invalidCredentials := by
    unfold authenticateUserCore
    rw [hpres]
    simp [hbad]
  exact ⟨h1, h2, h1.trans h2.symm⟩

/-- Witness for C3 on a concrete store holding only the account "bob": an
unknown-user login and a wrong-password login yield the identical
failure. -/
theorem authenticate_failures_indistinguishable_witness :
    getUser ⟨[⟨"bob", hashPassword "pw1", false⟩], [], []⟩ "alice" = none ∧
    getUser ⟨[⟨"bob", hashPassword "pw1", false⟩], [], []⟩ "bob" =
      some ⟨"bob", hashPassword "pw1", false⟩ ∧
    verifyPassword "wrong" (hashPassword "pw1") = false ∧
    authenticateUserCore ⟨[⟨"bob", hashPassword "pw1", false⟩], [], []⟩ "alice" "x" =
      authenticateUserCore ⟨[⟨"bob", hashPassword "pw1", false⟩], [], []⟩ "bob" "wrong" :=
  ⟨by decide, by decide, by decide,
    (authenticate_failures_indistinguishable
      ⟨[⟨"bob", hashPassword "pw1", false⟩], [], []⟩ "alice" "x" "bob" "wrong"
      ⟨"bob", hashPassword "pw1", false⟩ (by decide) (by decide) (by decide)).2.2⟩

/-! ### C4: revocation makes a token invalid -/

/-- C4: For every token whose expiresAt has not yet passed, after revoke
is applied to its claims, every subsequent parse of that token before its
natural expiry fails with Revoked; and a token id present in the
revocation set is always treated as invalid (parse never succeeds)
regardless of the token's own claimed expiry. -/
theorem revoked_token_invalid
    (revoked : List (String × Int)) (now0 : Int) (c : Claims)
    (hexp : now0 < c.expiresAt) :
    (∀ t : Int, t < c.expiresAt →
      parseAuthToken (revokeClaims revoked now0 c) t (some c) =
        Except.error Err.revoked) ∧
    (∀ (rs : List (String × Int)) (t : Int) (c2 r : Claims),
      isRevoked rs t c2.id = true → parseAuthToken rs t (some c2) ≠ Except.ok r) := by
  constructor
  · intro t ht
    have hrv : revokeClaims revoked now0 c = (c.id, c.expiresAt) :: revoked := by
      unfold revokeClaims storeInvalidatedToken
      have hpos : ¬(c.expiresAt - now0 ≤ 0) := by omega
      rw [if_neg hpos]
      have : now0 + (c.expiresAt - now0) = c.expiresAt := by omega
      rw [this]
    rw [hrv]
    have hnot : ¬(c.expiresAt ≤ t) := by omega
    have hmem : isRevoked ((c.id, c.expiresAt) :: revoked) t c.id = true := by
      unfold isRevoked
      simp [ht]
    simp only [parseAuthToken]
    rw [if_neg hnot, if_pos hmem]
  · intro rs t c2 r hrev
    simp only [parseAuthToken]
    by_cases hle : c2.expiresAt ≤ t
    · rw [if_pos hle]
      simp
    · rw [if_neg hle, if_pos hrev]
      simp

/-- Witness for C4: a token expiring at instant 100, revoked at instant 0,
fails Revoked when parsed at instant 50. -/
theorem revoked_token_invalid_witness :
    (0 : Int) < 100 ∧
    parseAuthToken (revokeClaims [] 0 ⟨"tid", "alice", 100⟩) 50
      (some ⟨"tid", "alice", 100⟩) = Except.error Err.revoked :=
  ⟨by decide,
    (revoked_token_invalid [] 0 ⟨"tid", "alice", 100⟩ (by decide)).1 50 (by decide)⟩

/-! ### C2: concurrent account creation -/

/-- Creating an already-present account name fails AlreadyExists and
leaves the store unchanged. -/
lemma createUser_present (db : DB) (u : User) (h : hasUser db u.name = true) :
    createUser db u = (Except.error Err.alreadyExists, db) := by
  unfold createUser
  rw [if_pos h]

/-- After a successful insert of an account, its name is present. -/
lemma hasUser_append (db : DB) (u : User) :
    hasUser { db with users := db.users ++ [u] } u.name = true := by
  unfold hasUser
  simp [List.any_append]

/-- Once the name is present, a whole batch of creates for that name fails
uniformly with AlreadyExists and leaves the store unchanged. -/
lemma runCreates_present (n : String) :
    ∀ (us : List User) (db : DB), hasUser db n = true → (∀ w ∈ us, w.name = n) →
    runCreates db us = (List.replicate us.length (Except.error Err.alreadyExists), db) := by
  intro us
  induction us with
  | nil => intro db _ _; rfl
  | cons u rest ih =>
    intro db hpres hall
    have hu : u.name = n := hall u (List.mem_cons_self u rest)
    have hstep : createUser db u = (Except.error Err.alreadyExists, db) :=
      createUser_present db u (by rw [hu]; exact hpres)
    unfold runCreates
    rw [hstep]
    have hrest := ih db hpres (fun w hw => hall w (List.mem_cons_of_mem u hw))
    dsimp only
    rw [hrest]
    simp [List.replicate_succ]

/-- C2: When several create calls with the same account name run
concurrently, each create is one atomic storage transaction
(check-and-insert), so any concurrent execution is a serialization of
those transactions; in every serialization exactly one call succeeds and
every other one fails with AlreadyExists, and the account exists
afterwards. -/
theorem concurrent_create_exactly_one
    (db : DB) (n : String) (u : User) (us : List User)
    (hu : u.name = n) (hall : ∀ w ∈ us, w.name = n)
    (habs : hasUser db n = false) :
    (runCreates db (u :: us)).1 =
      Except.ok () :: List.replicate us.length (Except.error Err.alreadyExists) ∧
    hasUser (runCreates db (u :: us)).2 n = true := by
  have hstep : createUser db u =
      (Except.ok (), { db with users := db.users ++ [u] }) := by
    unfold createUser
    rw [hu, if_neg (by rw [habs]; simp)]
  have hpres : hasUser { db with users := db.users ++ [u] } n = true := by
    have := hasUser_append db u
    rw [hu] at this
    exact this
  unfold runCreates
  rw [hstep]
  dsimp only
  rw [runCreates_present n us { db with users := db.users ++ [u] } hpres hall]
  exact ⟨rfl, hpres⟩

/-- Witness for C2: three racing creates of the account "alice" on an
empty store — the serialized first succeeds, both others fail
AlreadyExists. -/
theorem concurrent_create_exactly_one_witness :
    (⟨"alice", "d1", false⟩ : User).name = "alice" ∧
    hasUser emptyDB "alice" = false ∧
    (runCreates emptyDB
      [⟨"alice", "d1", false⟩, ⟨"alice", "d2", false⟩, ⟨"alice", "d3", true⟩]).1 =
      [Except.ok (), Except.error Err.alreadyExists, Except.error Err.alreadyExists] :=
  ⟨by decide, by decide, by
    have h := (concurrent_create_exactly_one emptyDB "alice" ⟨"alice", "d1", false⟩
      [⟨"alice", "d2", false⟩, ⟨"alice", "d3", true⟩]
      (by decide) (by decide) (by decide)).1
    simpa using h⟩

/-! ### C9: a valid cookie short-circuits login -/

/-- C9: For every login request that carries a cookie whose token parses
successfully and whose claimed account still exists, Login returns that
account's public view immediately, without reading, validating, or
checking the credentials in the request body: the response is the public
view and is independent of the body. -/
theorem login_with_cookie_ignores_body
    (db : DB) (now : Int) (tok : Option Claims) (c : Claims) (u : User)
    (body1 body2 : Option LoginBody)
    (hp : parseAuthToken db.revoked now tok = Except.ok c)
    (hg : getUser db c.user = some u) :
    loginRoute db now (some tok) body1 = LoginResult.okUser ⟨u.name, u.admin⟩ ∧
    loginRoute db now (some tok) body1 = loginRoute db now (some tok) body2 := by
  have hauth : authenticateUser db now (some tok) = some u := by
    simp only [authenticateUser, hp, hg]
  have h1 : ∀ body : Option LoginBody,
      loginRoute db now (some tok) body = LoginResult.okUser ⟨u.name, u.admin⟩ := by
    intro body
    unfold loginRoute
    rw [hauth]
  exact ⟨h1 body1, (h1 body1).trans (h1 body2).symm⟩

/-- Witness for C9: a store holding the account "alice", a cookie carrying
a valid unexpired token for "alice", and two different bodies — wrong
credentials and no body at all — produce the same successful response. -/
theorem login_with_cookie_ignores_body_witness :
    parseAuthToken (⟨[⟨"alice", hashPassword "pw", true⟩], [], []⟩ : DB).revoked 0
      (some ⟨"tid", "alice", 100⟩) = Except.ok ⟨"tid", "alice", 100⟩ ∧
    getUser ⟨[⟨"alice", hashPassword "pw", true⟩], [], []⟩ "alice" =
      some ⟨"alice", hashPassword "pw", true⟩ ∧
    loginRoute ⟨[⟨"alice", hashPassword "pw", true⟩], [], []⟩ 0
        (some (some ⟨"tid", "alice", 100⟩)) (some ⟨"alice", "totallywrong"⟩) =
      LoginResult.okUser ⟨"alice", true⟩ ∧
    loginRoute ⟨[⟨"alice", hashPassword "pw", true⟩], [], []⟩ 0
        (some (some ⟨"tid", "alice", 100⟩)) (some ⟨"alice", "totallywrong"⟩) =
      loginRoute ⟨[⟨"alice", hashPassword "pw", true⟩], [], []⟩ 0
        (some (some ⟨"tid", "alice", 100⟩)) none :=
  ⟨by rfl, by decide,
    (login_with_cookie_ignores_body ⟨[⟨"alice", hashPassword "pw", true⟩], [], []⟩ 0
      (some ⟨"tid", "alice", 100⟩) ⟨"tid", "alice", 100⟩
      ⟨"alice", hashPassword "pw", true⟩
      (some ⟨"alice", "totallywrong"⟩) none (by rfl) (by decide)).1,
    (login_with_cookie_ignores_body ⟨[⟨"alice", hashPassword "pw", true⟩], [], []⟩ 0
      (some ⟨"tid", "alice", 100⟩) ⟨"tid", "alice", 100⟩
      ⟨"alice", hashPassword "pw", true⟩
      (some ⟨"alice", "totallywrong"⟩) none (by rfl) (by decide)).2⟩

/-! ### C10: an admin may not update their own account -/

/-- C10: For every authenticated admin requester, the admin update-account
operation applied to a target name equal to the requester's own name
always fails Forbidden before any read or write, leaving every account
unchanged: the handler returns Forbidden and the storage state it returns
is the input state. -/
theorem update_self_forbidden
    (db : DB) (now : Int) (cookie : Option (Option Claims)) (name : String)
    (body : Option PartialUser) (u : User)
    (hauth : authenticateUser db now cookie = some u)
    (hadmin : u.admin = true)
    (hname : name = u.name) :
    updateUserRoute db now cookie name body = (UpdateUserResult.forbidden, db) := by
  unfold updateUserRoute
  rw [hauth]
  have h1 : (!u.admin) = false := by rw [hadmin]; rfl
  have h2 : (name == u.name) = true := by rw [hname]; exact beq_self_eq_true u.name
  simp only [h1, h2]
  rfl

/-- Witness for C10: the admin "root", authenticated by a valid cookie,
targeting "root" itself — the request is rejected Forbidden and the store
is unchanged. -/
theorem update_self_forbidden_witness :
    authenticateUser ⟨[⟨"root", hashPassword "pw", true⟩], [], []⟩ 0
      (some (some ⟨"tid", "root", 100⟩)) = some ⟨"root", hashPassword "pw", true⟩ ∧
    updateUserRoute ⟨[⟨"root", hashPassword "pw", true⟩], [], []⟩ 0
        (some (some ⟨"tid", "root", 100⟩)) "root" (some ⟨some false, none⟩) =
      (UpdateUserResult.forbidden, ⟨[⟨"root", hashPassword "pw", true⟩], [], []⟩) :=
  ⟨by decide,
    update_self_forbidden ⟨[⟨"root", hashPassword "pw", true⟩], [], []⟩ 0
      (some (some ⟨"tid", "root", 100⟩)) "root" (some ⟨some false, none⟩)
      ⟨"root", hashPassword "pw", true⟩ (by decide) (by decide) (by decide)⟩

/-! ### C8: the key namespace encoder round-trips and fails closed -/

/-- Reading one component from an encoded component followed by anything
recovers the component and the remainder. -/
lemma readComponent_encodeComponent (s rest : List Nat) (h : s.length < 2 ^ 32) :
    readComponent (encodeComponent s ++ rest) = some (s, rest) := by
  have e1 : encodeComponent s ++ rest =
      s.length / 2 ^ 24 % 256 :: s.length / 2 ^ 16 % 256 :: s.length / 2 ^ 8 % 256 ::
        s.length % 256 :: (s ++ rest) := by
    simp [encodeComponent, toBytes4]
  rw [e1]
  simp only [readComponent]
  have h1 : s.length / 2 ^ 24 % 256 < 256 := Nat.mod_lt _ (by norm_num)
  have h2 : s.length / 2 ^ 16 % 256 < 256 := Nat.mod_lt _ (by norm_num)
  have h3 : s.length / 2 ^ 8 % 256 < 256 := Nat.mod_lt _ (by norm_num)
  have h4 : s.length % 256 < 256 := Nat.mod_lt _ (by norm_num)
  have h5 : fromBytes4 (s.length / 2 ^ 24 % 256) (s.length / 2 ^ 16 % 256)
      (s.length / 2 ^ 8 % 256) (s.length % 256) = s.length := by
    unfold fromBytes4
    omega
  rw [if_pos (by simp only [Bool.and_eq_true, decide_eq_true_eq]; omega)]
  rw [h5] at *
  rw [if_pos (by simp [List.length_append, Nat.le_add_right])]
  rw [List.take_left, List.drop_left]

/-- Whatever `readComponent` accepts is exactly an encoded component
followed by the returned remainder, with a length below the fixed-width
bound. -/
lemma readComponent_sound (b s rest : List Nat)
    (h : readComponent b = some (s, rest)) :
    b = encodeComponent s ++ rest ∧ s.length < 2 ^ 32 := by
  match b with
  | [] => simp [readComponent] at h
  | [a] => simp [readComponent] at h
  | [a, b2] => simp [readComponent] at h
  | [a, b2, c] => simp [readComponent] at h
  | a :: b2 :: c :: d :: rest2 =>
    simp only [readComponent] at h
    by_cases hg : a < 256 && b2 < 256 && c < 256 && d < 256
    case neg =>
      rw [if_neg (by simpa using hg)] at h
      exact absurd h (by simp)
    case pos =>
      rw [if_pos (by simpa using hg)] at h
      simp only [Bool.and_eq_true, decide_eq_true_eq] at hg
      obtain ⟨⟨⟨ha, hb2⟩, hc⟩, hd⟩ := hg
      by_cases hlen : fromBytes4 a b2 c d ≤ rest2.length
      case neg =>
        rw [if_neg hlen] at h
        exact absurd h (by simp)
      case pos =>
        rw [if_pos hlen] at h
        have hs : s = rest2.take (fromBytes4 a b2 c d) := by
          have := h
          simp only [Option.some.injEq, Prod.mk.injEq] at this
          exact this.1.symm
        have hr : rest = rest2.drop (fromBytes4 a b2 c d) := by
          have := h
          simp only [Option.some.injEq, Prod.mk.injEq] at this
          exact this.2.symm
        have hslen : s.length = fromBytes4 a b2 c d := by
          rw [hs, List.length_take]
          omega
        have hbound : fromBytes4 a b2 c d < 2 ^ 32 := by
          unfold fromBytes4
          omega
        constructor
        · have htb : toBytes4 s.length = [a, b2, c, d] := by
            rw [hslen]
            unfold toBytes4 fromBytes4
            unfold fromBytes4 at hbound
            simp only [List.cons.injEq, and_true]
            refine ⟨by omega, by omega, by omega, by omega⟩
          show a :: b2 :: c :: d :: rest2 = encodeComponent s ++ rest
          unfold encodeComponent
          rw [htb, hs, hr]
          simp [List.take_append_drop]
        · rw [hslen]
          exact hbound

/-- C8: decodeDataKey applied to an encoded DataItem key returns exactly
the original (owner, key) pair, and decodeDataKey accepts a byte string
only when it is exactly the encoding of the pair it returns — any other
(malformed) input, including one with trailing bytes, surfaces a decode
error instead of silently truncating, so no owner or key can be confused
with a different owner/key pair; keys of the other entity kinds are never
decoded as data keys. -/
theorem decodeDataKey_exact_inverse :
    (∀ owner key : List Nat, owner.length < 2 ^ 32 → key.length < 2 ^ 32 →
      decodeDataKey (encodeKey EntityKind.dataItem owner (some key)) =
        some (owner, key)) ∧
    (∀ b owner key : List Nat, decodeDataKey b = some (owner, key) →
      b = encodeKey EntityKind.dataItem owner (some key)) ∧
    (∀ name : List Nat, decodeDataKey (encodeKey EntityKind.account name none) = none ∧
      decodeDataKey (encodeKey EntityKind.revokedToken name none) = none) := by
  refine ⟨?_, ?_, ?_⟩
  · intro owner key ho hk
    show decodeDataKey
      (kindTag EntityKind.dataItem :: (encodeComponent owner ++ encodeComponent key)) = _
    simp only [decodeDataKey, if_true]
    rw [readComponent_encodeComponent owner (encodeComponent key) ho]
    dsimp only
    have h2 : readComponent (encodeComponent key) = some (key, []) := by
      have := readComponent_encodeComponent key [] hk
      rwa [List.append_nil] at this
    rw [h2]
    simp
  · intro b owner key h
    match b with
    | [] => simp [decodeDataKey] at h
    | t :: rest =>
      simp only [decodeDataKey] at h
      by_cases ht : t = kindTag EntityKind.dataItem
      case neg =>
        rw [if_neg ht] at h
        exact absurd h (by simp)
      case pos =>
        rw [if_pos ht] at h
        cases hr : readComponent rest with
        | none => rw [hr] at h; exact absurd h (by simp)
        | some pr =>
          obtain ⟨ow, rest2⟩ := pr
          rw [hr] at h
          dsimp only at h
          cases hr2 : readComponent rest2 with
          | none => rw [hr2] at h; exact absurd h (by simp)
          | some pr2 =>
            obtain ⟨ky, rest3⟩ := pr2
            rw [hr2] at h
            dsimp only at h
            by_cases h3 : rest3 = []
            case neg =>
              rw [if_neg h3] at h
              exact absurd h (by simp)
            case pos =>
              rw [if_pos h3] at h
              simp only [Option.some.injEq, Prod.mk.injEq] at h
              obtain ⟨how, hky⟩ := h
              obtain ⟨hb1, _⟩ := readComponent_sound rest ow rest2 hr
              obtain ⟨hb2, _⟩ := readComponent_sound rest2 ky rest3 hr2
              subst how hky ht h3
              rw [List.append_nil] at hb2
              show kindTag EntityKind.dataItem :: rest =
                kindTag EntityKind.dataItem :: (encodeComponent ow ++ encodeComponent ky)
              rw [hb1, hb2]
  · intro name
    constructor <;> · show decodeDataKey (_ :: encodeComponent name) = none
                      simp [decodeDataKey, kindTag]

/-- Witness for C8: the concrete owner bytes [5, 6] and key bytes [7]
round-trip through the encoder. -/
theorem decodeDataKey_exact_inverse_witness :
    ([5, 6] : List Nat).length < 2 ^ 32 ∧
    decodeDataKey (encodeKey EntityKind.dataItem [5, 6] (some [7])) = some ([5, 6], [7]) :=
  ⟨by norm_num,
    decodeDataKey_exact_inverse.1 [5, 6] [7] (by norm_num) (by norm_num)⟩

/-! ### C1: the quota check is off by one -/

/-- Counterexample to C1 as stated: with the per-account quota configured
to N = 1, after "alice" has stored the single distinct key "a", the
setData call for the second — the (N+1)-th — distinct key "b" is NOT
rejected: the count check `count > AppKeysPerUser` (src/routes/data.go
line 93) compares with strict inequality, sees count = 1 which is not
greater than 1, and the write proceeds, leaving the owner with 2 > N
distinct keys. -/
theorem quota_rejects_only_above_limit_counterexample :
    (setDataRoute ⟨1, 5, fun _ => true⟩
        (setDataRoute ⟨1, 5, fun _ => true⟩ emptyDB (some ⟨"alice", "d", false⟩)
          "a" (some 0) (some [])).2
        (some ⟨"alice", "d", false⟩) "b" (some 0) (some [])).1 = SetDataResult.ok ∧
    distinctKeyCount
      (setDataRoute ⟨1, 5, fun _ => true⟩
        (setDataRoute ⟨1, 5, fun _ => true⟩ emptyDB (some ⟨"alice", "d", false⟩)
          "a" (some 0) (some [])).2
        (some ⟨"alice", "d", false⟩) "b" (some 0) (some [])).2 "alice" = 2 := by
  constructor
  · rfl
  · decide

/-- The count does not depend on the key argument passed along with the
owner. -/
lemma getDataCountForUser_key_irrelevant (db : DB) (o k1 k2 : String) :
    getDataCountForUser db o k1 = getDataCountForUser db o k2 := rfl

/-- Setting a fresh key adds exactly one entry for the owner. -/
lemma countEntries_set_fresh (db : DB) (o k : String) (v : List Nat)
    (h : hasDataKey db o k = false) :
    getDataCountForUser.countEntries (setDataForUser db o k v).data o =
      getDataCountForUser.countEntries db.data o + 1 := by
  have hfil : db.data.filter (fun e => !(e.1 == o && e.2.1 == k)) = db.data := by
    rw [List.filter_eq_self]
    intro a ha
    have hall := List.any_eq_false.mp h a ha
    simp only [Bool.not_eq_true] at hall
    simp [hall]
  show getDataCountForUser.countEntries
    (db.data.filter (fun e => !(e.1 == o && e.2.1 == k)) ++ [(o, k, v)]) o = _
  rw [hfil, countEntries_append]
  simp [getDataCountForUser.countEntries]

/-- Setting one key leaves every other key of the owner absent if it was
absent. -/
lemma hasDataKey_set_other (db : DB) (o k k3 : String) (v : List Nat)
    (hne : k3 ≠ k) (h : hasDataKey db o k3 = false) :
    hasDataKey (setDataForUser db o k v) o k3 = false := by
  unfold hasDataKey at h ⊢
  show ((db.data.filter (fun e => !(e.1 == o && e.2.1 == k)) ++ [(o, k, v)]).any
    (fun e => e.1 == o && e.2.1 == k3)) = false
  rw [List.any_append]
  have h1 : (db.data.filter (fun e => !(e.1 == o && e.2.1 == k))).any
      (fun e => e.1 == o && e.2.1 == k3) = false := by
    rw [List.any_eq_false]
    intro x hx
    exact List.any_eq_false.mp h x (List.mem_filter.mp hx).1
  have hkk : (k == k3) = false := beq_eq_false_iff_ne.mpr (Ne.symm hne)
  rw [h1]
  simp [hkk]

/-- Filtering entries can only lower the owner's entry count. -/
lemma countEntries_filter_le (l : List (String × String × List Nat))
    (p : String × String × List Nat → Bool) (o : String) :
    getDataCountForUser.countEntries (l.filter p) o ≤
      getDataCountForUser.countEntries l o := by
  induction l with
  | nil => simp [getDataCountForUser.countEntries]
  | cons e rest ih =>
    rw [List.filter_cons]
    by_cases hp : p e = true
    · rw [if_pos hp]
      show (if (e.1 == o) = true then 1 else 0) + _ ≤
        (if (e.1 == o) = true then 1 else 0) + _
      omega
    · rw [if_neg hp]
      show _ ≤ (if (e.1 == o) = true then 1 else 0) + _
      omega

/-- A SetData request that reaches the write always passed the quota
check, so after it the owner holds at most quota + 1 entries. -/
lemma setDataRoute_ok_bound (cfg : Config) (db db2 : DB) (user : User)
    (key : String) (size : Option Nat) (body : Option (List Nat))
    (h : setDataRoute cfg db (some user) key size body = (SetDataResult.ok, db2)) :
    distinctKeyCount db2 user.name ≤ cfg.appKeysPerUser + 1 := by
  unfold setDataRoute at h
  cases hkey : cfg.keyOk key with
  | false => rw [hkey] at h; simp at h
  | true =>
    rw [hkey] at h
    simp only [Bool.not_true] at h
    rw [if_neg (by simp)] at h
    by_cases hq : cfg.appKeysPerUser < getDataCountForUser db user.name key
    · rw [if_pos hq] at h
      simp at h
    · rw [if_neg hq] at h
      cases size with
      | none => simp at h
      | some s =>
        dsimp only at h
        by_cases hs : cfg.appDataMaxSize < s
        · rw [if_pos hs] at h
          simp at h
        · rw [if_neg hs] at h
          cases body with
          | none => simp at h
          | some v =>
            dsimp only at h
            have hdb2 : db2 = setDataForUser db user.name key v := by
              have := congrArg Prod.snd h
              simpa using this.symm
            subst hdb2
            calc distinctKeyCount (setDataForUser db user.name key v) user.name
                ≤ getDataCountForUser.countEntries
                    (setDataForUser db user.name key v).data user.name :=
                  distinctKeyCount_le_countEntries _ _
              _ ≤ getDataCountForUser.countEntries db.data user.name + 1 := by
                  show getDataCountForUser.countEntries
                    (db.data.filter (fun e => !(e.1 == user.name && e.2.1 == key))
                      ++ [(user.name, key, v)]) user.name ≤ _
                  rw [countEntries_append]
                  have h1 := countEntries_filter_le db.data
                    (fun e => !(e.1 == user.name && e.2.1 == key)) user.name
                  have h2 : getDataCountForUser.countEntries
                      [(user.name, key, v)] user.name = 1 := by
                    simp [getDataCountForUser.countEntries]
                  omega
              _ ≤ cfg.appKeysPerUser + 1 := by
                  have : getDataCountForUser db user.name key =
                    getDataCountForUser.countEntries db.data user.name := rfl
                  omega

/-- A batch of fresh, pattern-valid keys within the accepted window all
succeed, and the owner's entry count grows by the batch size. -/
lemma runSets_all_ok (cfg : Config) (user : User) :
    ∀ (ks : List String) (db : DB),
      ks.Nodup →
      (∀ k ∈ ks, cfg.keyOk k = true) →
      (∀ k ∈ ks, hasDataKey db user.name k = false) →
      getDataCountForUser.countEntries db.data user.name + ks.length ≤
        cfg.appKeysPerUser + 1 →
      (runSets cfg db user ks).1 = List.replicate ks.length SetDataResult.ok ∧
      getDataCountForUser.countEntries (runSets cfg db user ks).2.data user.name =
        getDataCountForUser.countEntries db.data user.name + ks.length := by
  intro ks
  induction ks with
  | nil =>
    intro db _ _ _ _
    exact ⟨rfl, by simp [runSets]⟩
  | cons k rest ih =>
    intro db hnd hok hfresh hle
    have hkeyok : cfg.keyOk k = true := hok k (List.mem_cons_self k rest)
    simp only [List.length_cons] at hle
    have hcount : ¬(cfg.appKeysPerUser < getDataCountForUser db user.name k) := by
      have hrfl : getDataCountForUser db user.name k =
        getDataCountForUser.countEntries db.data user.name := rfl
      omega
    have hstep : setDataRoute cfg db (some user) k (some 0) (some []) =
        (SetDataResult.ok, setDataForUser db user.name k []) := by
      simp [setDataRoute, hkeyok, hcount]
    have hfreshk : hasDataKey db user.name k = false :=
      hfresh k (List.mem_cons_self k rest)
    have hcnt1 := countEntries_set_fresh db user.name k [] hfreshk
    have hfresh2 : ∀ k3 ∈ rest, hasDataKey (setDataForUser db user.name k [])
        user.name k3 = false := by
      intro k3 hk3
      refine hasDataKey_set_other db user.name k k3 [] ?_
        (hfresh k3 (List.mem_cons_of_mem k hk3))
      intro heq
      exact (List.nodup_cons.mp hnd).1 (heq ▸ hk3)
    obtain ⟨hres, hcnt2⟩ := ih (setDataForUser db user.name k [])
      (List.nodup_cons.mp hnd).2
      (fun k3 hk3 => hok k3 (List.mem_cons_of_mem k hk3))
      hfresh2
      (by rw [hcnt1]; omega)
    constructor
    · unfold runSets
      rw [hstep]
      dsimp only
      rw [hres]
      simp [List.replicate_succ]
    · unfold runSets
      rw [hstep]
      dsimp only
      rw [hcnt2, hcnt1]
      simp only [List.length_cons]
      omega

/-- C1 (amended): With the per-account quota configured to N, setData of N
distinct keys for one owner succeeds AND so does the (N+1)-th distinct
key, because the count check performed before the write (src/routes/
data.go line 93) rejects only when the pre-write count strictly exceeds N;
a setData call for an (N+2)-th distinct key of that owner is rejected as
exceeding the quota, so the number of distinct keys owned by one account
never exceeds N + 1 after any successful setData call. -/
theorem quota_soft_limit_plus_one
    (cfg : Config) (user : User) (ks : List String) (k2 : String)
    (hnd : ks.Nodup) (hok : ∀ k ∈ ks, cfg.keyOk k = true)
    (hk2 : cfg.keyOk k2 = true) (_hk2new : k2 ∉ ks)
    (hlen : ks.length = cfg.appKeysPerUser + 1) :
    (runSets cfg emptyDB user ks).1 = List.replicate ks.length SetDataResult.ok ∧
    (setDataRoute cfg (runSets cfg emptyDB user ks).2 (some user) k2 (some 0)
        (some [])).1 = SetDataResult.quotaExceeded ∧
    (∀ (db db2 : DB) (key : String) (size : Option Nat) (body : Option (List Nat)),
      setDataRoute cfg db (some user) key size body = (SetDataResult.ok, db2) →
      distinctKeyCount db2 user.name ≤ cfg.appKeysPerUser + 1) := by
  have hempty : ∀ k ∈ ks, hasDataKey emptyDB user.name k = false := by
    intro k _
    rfl
  have hcnt0 : getDataCountForUser.countEntries emptyDB.data user.name = 0 := rfl
  obtain ⟨hres, hcnt⟩ := runSets_all_ok cfg user ks emptyDB hnd hok hempty
    (by rw [hcnt0, hlen]; omega)
  refine ⟨hres, ?_, fun db db2 key size body h =>
    setDataRoute_ok_bound cfg db db2 user key size body h⟩
  have hfull : getDataCountForUser (runSets cfg emptyDB user ks).2 user.name k2 =
      cfg.appKeysPerUser + 1 := by
    have hrfl : getDataCountForUser (runSets cfg emptyDB user ks).2 user.name k2 =
      getDataCountForUser.countEntries (runSets cfg emptyDB user ks).2.data
        user.name := rfl
    rw [hrfl, hcnt, hcnt0, hlen]
    omega
  show (setDataRoute cfg (runSets cfg emptyDB user ks).2 (some user) k2 (some 0)
    (some [])).1 = SetDataResult.quotaExceeded
  unfold setDataRoute
  rw [hk2]
  simp only [Bool.not_true]
  rw [if_neg (by simp)]
  rw [if_pos (by rw [hfull]; omega)]

/-- Witness for the amended C1: with quota 1, the two distinct keys "a"
and "b" both succeed from the empty store, and the third distinct key "c"
is rejected as exceeding the quota. -/
theorem quota_soft_limit_plus_one_witness :
    (["a", "b"] : List String).Nodup ∧
    (runSets ⟨1, 5, fun _ => true⟩ emptyDB ⟨"alice", "d", false⟩ ["a", "b"]).1 =
      List.replicate 2 SetDataResult.ok ∧
    (setDataRoute ⟨1, 5, fun _ => true⟩
        (runSets ⟨1, 5, fun _ => true⟩ emptyDB ⟨"alice", "d", false⟩ ["a", "b"]).2
        (some ⟨"alice", "d", false⟩) "c" (some 0) (some [])).1 =
      SetDataResult.quotaExceeded :=
  ⟨by decide,
    (quota_soft_limit_plus_one ⟨1, 5, fun _ => true⟩ ⟨"alice", "d", false⟩
      ["a", "b"] "c" (by decide) (by decide) (by decide) (by decide) (by decide)).1,
    (quota_soft_limit_plus_one ⟨1, 5, fun _ => true⟩ ⟨"alice", "d", false⟩
      ["a", "b"] "c" (by decide) (by decide) (by decide) (by decide) (by decide)).2.1⟩

end Genesis
